import Mathlib

/-!
Verification of the Stage-1 cohort-labeling pipeline of AmazonBeautyReview
(`src/build_stage1.py`) against its specification.

The pipeline is a pure batch computation over a list of review events:
each event carries a `parent_asin` (the product key) and an integer
`timestamp` (a 64-bit epoch value).  The code derives

  * `review_date  = from_unixtime(timestamp / 1_000_000_000)` — the long
    timestamp is divided by 1e9 (double division, then the result is cast
    back to a long number of seconds, truncating toward zero);
  * `launch_date  = min(review_date) over the product's events` (a window
    over `parent_asin`);
  * `day_from_launch = datediff(review_date, launch_date)` — the calendar
    day difference, i.e. the difference of the floor-by-86400 day numbers;
  * the indicator columns `is_day_0_27` and `is_future_28_55`;
  * `dataset_end = max(review_date) over ALL events`,
    `cutoff_date = date_sub(dataset_end, 55)` (a date, i.e. a day number);
  * per-product aggregates (`groupBy parent_asin`), the boolean columns
    `observable_55d`, `eligible`, `keep_product`, the nullable columns
    `traction_flag` / `low_traction_flag`, and `launch_year`;
  * `reviews_filtered` / `meta_clean_filtered` by an inner join with the
    distinct kept product keys.

Timestamps are modelled as integers (seconds since the epoch after
anchoring); dates as integer day numbers (floor of seconds / 86400, as the
timestamp→date cast floors in the session time zone).  In the comparison
`launch_date <= cutoff_date` Spark promotes the date to a timestamp at
midnight, i.e. to `86400 * cutoff_date` seconds.
-/

namespace AmazonBeauty

/-- One review event, as read by `build_stage1.py`: `parent_asin` is the
modeling grain and `timestamp` the raw epoch integer forced to LongType.
The remaining columns (asin, rating, text, …) are carried through the
pipeline untouched and play no role in the cohort computation. -/
structure ReviewEvent where
  parent_asin : String
  timestamp : Int
  deriving Repr, DecidableEq

/-- One metadata row (`df_meta_raw`), keyed by `parent_asin`; the other
attributes are opaque to the core and summarised by one payload field. -/
structure MetaRow where
  parent_asin : String
  payload : String
  deriving Repr, DecidableEq

/-- `review_date` in epoch seconds:
`F.from_unixtime(F.col("timestamp") / 1_000_000_000)` — the long is divided
by 1e9 and the quotient is interpreted as seconds; the cast back to a long
truncates toward zero (`Int.tdiv`). -/
def reviewDate (e : ReviewEvent) : Int :=
  Int.tdiv e.timestamp 1000000000

/-- The day number of an epoch-seconds value: the timestamp→date cast,
which floors (also for instants before the epoch). -/
def dayOf (s : Int) : Int :=
  Int.fdiv s 86400

/-- Minimum of a list of integers; Spark's `F.min` aggregate (the `[]` case
never arises: every group has at least the row that created it). -/
def minList : List Int → Int
  | [] => 0
  | x :: xs => xs.foldl min x

/-- Maximum of a list of integers; Spark's `F.max` aggregate. -/
def maxList : List Int → Int
  | [] => 0
  | x :: xs => xs.foldl max x

/-- The events of one product: the window partition / group for
`parent_asin = p`. -/
def eventsOf (events : List ReviewEvent) (p : String) : List ReviewEvent :=
  events.filter (fun e => e.parent_asin = p)

/-- `launch_date` of a product: `F.min("review_date").over(window_parent)`,
the minimum review date over the events sharing the `parent_asin`. -/
def launchDate (events : List ReviewEvent) (p : String) : Int :=
  minList ((eventsOf events p).map reviewDate)

/-- One row of the augmented event dataframe `df_reviews` after stages 2–5:
the source columns plus `review_date`, `launch_date`, `day_from_launch`,
`is_day_0_27` and `is_future_28_55`. -/
structure AugRow where
  parent_asin : String
  timestamp : Int
  review_date : Int
  launch_date : Int
  day_from_launch : Int
  is_day_0_27 : Int
  is_future_28_55 : Int
  deriving Repr, DecidableEq

/-- The per-event augmentation (stages 2–5 of `build_stage1.py`):
`review_date` from the timestamp, `launch_date` from the window minimum,
`day_from_launch = datediff(review_date, launch_date)` and the two window
indicator columns. -/
def augRow (events : List ReviewEvent) (e : ReviewEvent) : AugRow :=
  let rd := reviewDate e
  let ld := launchDate events e.parent_asin
  let dfl := dayOf rd - dayOf ld
  { parent_asin := e.parent_asin
    timestamp := e.timestamp
    review_date := rd
    launch_date := ld
    day_from_launch := dfl
    is_day_0_27 := if 0 ≤ dfl ∧ dfl ≤ 27 then 1 else 0
    is_future_28_55 := if 28 ≤ dfl ∧ dfl ≤ 55 then 1 else 0 }

/-- The augmented event dataframe: every input event, with the derived
temporal columns added (no row is dropped or duplicated here). -/
def augment (events : List ReviewEvent) : List AugRow :=
  events.map (augRow events)

/-- `day_from_launch` of one event:
`F.datediff(F.col("review_date"), F.col("launch_date"))`, the calendar-day
difference between the review date and the product's launch date. -/
def dayFromLaunch (events : List ReviewEvent) (e : ReviewEvent) : Int :=
  dayOf (reviewDate e) - dayOf (launchDate events e.parent_asin)

/-- `dataset_end = df_reviews.agg(F.max("review_date"))`: the single global
maximum review date over ALL events of the run. -/
def datasetEnd (events : List ReviewEvent) : Int :=
  maxList (events.map reviewDate)

/-- `cutoff_date = F.date_sub(F.lit(dataset_end), 55)`: `date_sub` casts the
timestamp to a date (its day number) and subtracts 55 days; the result is a
date. -/
def cutoffDate (events : List ReviewEvent) : Int :=
  dayOf (datasetEnd events) - 55

/-- The augmented rows of one product: the `groupBy("parent_asin")` group. -/
def rowsOf (rows : List AugRow) (p : String) : List AugRow :=
  rows.filter (fun r => r.parent_asin = p)

/-- One row of `df_product_stats`, the FIRST aggregation (stage 4):
`min(launch_date)`, `sum(is_day_0_27)`, then `observable_55d` and
`eligible`. -/
structure ProductStats where
  parent_asin : String
  launch_date : Int
  reviews_28d : Int
  observable_55d : Bool
  eligible : Bool
  deriving Repr, DecidableEq

/-- The first aggregation pass (`df_product_stats`), evaluated over the
augmented events.  In the comparison `launch_date <= cutoff_date` the date
is promoted to the timestamp `86400 * cutoff_date`. -/
def productStats (events : List ReviewEvent) (p : String) : ProductStats :=
  let rows := rowsOf (augment events) p
  let ld := minList (rows.map (fun r => r.launch_date))
  let r28 := (rows.map (fun r => r.is_day_0_27)).sum
  { parent_asin := p
    launch_date := ld
    reviews_28d := r28
    observable_55d := decide (ld ≤ 86400 * cutoffDate events)
    eligible := decide (3 ≤ r28) }

/-- The year of a day number (days since 1970-01-01) in the proleptic
Gregorian calendar, as Spark's `F.year` computes it on the date of the
timestamp (civil-from-days). -/
def yearOfDay (z : Int) : Int :=
  let zs := z + 719468
  let era := Int.fdiv zs 146097
  let doe := zs - era * 146097
  let yoe := Int.fdiv (doe - Int.fdiv doe 1460 + Int.fdiv doe 36524 - Int.fdiv doe 146096) 365
  let y := yoe + era * 400
  let doy := doe - (365 * yoe + Int.fdiv yoe 4 - Int.fdiv yoe 100)
  let mp := Int.fdiv (5 * doy + 2) 153
  let m := if mp < 10 then mp + 3 else mp - 9
  if m ≤ 2 then y + 1 else y

/-- The `launch_date` column of `df_product_agg`:
`F.min("launch_date")` over the product's augmented rows. -/
def aggLaunchDate (events : List ReviewEvent) (p : String) : Int :=
  minList ((rowsOf (augment events) p).map (fun r => r.launch_date))

/-- The `reviews_28d` column of `df_product_agg`:
`F.sum("is_day_0_27")` over the product's augmented rows. -/
def reviews28d (events : List ReviewEvent) (p : String) : Int :=
  ((rowsOf (augment events) p).map (fun r => r.is_day_0_27)).sum

/-- The `future_reviews_28d` column of `df_product_agg`:
`F.sum("is_future_28_55")` over the product's augmented rows. -/
def futureReviews28d (events : List ReviewEvent) (p : String) : Int :=
  ((rowsOf (augment events) p).map (fun r => r.is_future_28_55)).sum

/-- The `observable_55d` column: `F.col("launch_date") <= cutoff_date`,
where the date `cutoff_date` is promoted to the timestamp
`86400 * cutoff_date` for the comparison. -/
def observable55d (events : List ReviewEvent) (p : String) : Bool :=
  decide (aggLaunchDate events p ≤ 86400 * cutoffDate events)

/-- The `eligible` column: `F.col("reviews_28d") >= 3`. -/
def eligibleCol (events : List ReviewEvent) (p : String) : Bool :=
  decide (3 ≤ reviews28d events p)

/-- The `traction_flag` column:
`WHEN observable_55d THEN (WHEN future_reviews_28d > 0 THEN 1 ELSE 0) ELSE NULL`. -/
def tractionFlag (events : List ReviewEvent) (p : String) : Option Int :=
  if observable55d events p then
    some (if 0 < futureReviews28d events p then 1 else 0)
  else none

/-- The `low_traction_flag` column:
`WHEN observable_55d THEN (WHEN future_reviews_28d == 0 THEN 1 ELSE 0) ELSE NULL`. -/
def lowTractionFlag (events : List ReviewEvent) (p : String) : Option Int :=
  if observable55d events p then
    some (if futureReviews28d events p = 0 then 1 else 0)
  else none

/-- The `keep_product` column: `F.col("eligible") & F.col("observable_55d")`. -/
def keepProduct (events : List ReviewEvent) (p : String) : Bool :=
  eligibleCol events p && observable55d events p

/-- One row of `df_product_index`: the second aggregation (`df_product_agg`)
plus `dataset_end`, the classifier columns, and `launch_year`.
`traction_flag` / `low_traction_flag` are nullable integer columns:
`none` models SQL NULL, `some 1` / `some 0` the defined values. -/
structure ProductRow where
  parent_asin : String
  launch_date : Int
  reviews_28d : Int
  future_reviews_28d : Int
  dataset_end : Int
  observable_55d : Bool
  eligible : Bool
  traction_flag : Option Int
  low_traction_flag : Option Int
  keep_product : Bool
  launch_year : Int
  deriving Repr, DecidableEq

/-- The product-index row of one product (stages 5–6): the second
aggregation `df_product_agg` (`min(launch_date)`, `sum(is_day_0_27)`,
`sum(is_future_28_55)`), then `dataset_end`, `observable_55d`, `eligible`,
the traction flags (`NULL` when not observable), `keep_product` and
`launch_year`. -/
def mkProductRow (events : List ReviewEvent) (p : String) : ProductRow :=
  { parent_asin := p
    launch_date := aggLaunchDate events p
    reviews_28d := reviews28d events p
    future_reviews_28d := futureReviews28d events p
    dataset_end := datasetEnd events
    observable_55d := observable55d events p
    eligible := eligibleCol events p
    traction_flag := tractionFlag events p
    low_traction_flag := lowTractionFlag events p
    keep_product := keepProduct events p
    launch_year := yearOfDay (dayOf (aggLaunchDate events p)) }

/-- `df_product_index`: one row per distinct `parent_asin` of the input
(the `groupBy` key set). -/
def productIndex (events : List ReviewEvent) : List ProductRow :=
  ((events.map (fun e => e.parent_asin)).dedup).map (mkProductRow events)

/-- `df_kept_products`: the distinct `parent_asin` with
`keep_product = true`. -/
def keptProducts (events : List ReviewEvent) : List String :=
  (((productIndex events).filter (fun r => r.keep_product)).map
    (fun r => r.parent_asin)).dedup

/-- `df_reviews_filtered`: the inner equi-join of the augmented events with
the (duplicate-free) kept-product keys, i.e. the events whose product is
kept.  (The final column projection keeps every row.) -/
def reviewsFiltered (events : List ReviewEvent) : List AugRow :=
  (augment events).filter (fun r => (keptProducts events).contains r.parent_asin)

/-- `df_meta_filtered`: the inner equi-join of the raw metadata with the
kept-product keys.  (The subsequent column drops keep every row.) -/
def metaFiltered (meta : List MetaRow) (events : List ReviewEvent) : List MetaRow :=
  meta.filter (fun m => (keptProducts events).contains m.parent_asin)

/-! ### Concrete example data

Product "A" has three reviews on day 0 (timestamps 0, 1e9 and 2e9, i.e.
seconds 0, 1 and 2 after anchoring) and one review on day 100; product "B"
has a single review on day 99.  With `dataset_end` on day 100 the cutoff
date is day 45, so "A" (launched day 0) is observable and kept while "B"
(launched day 99) is neither. -/

/-- A five-event example input with two products. -/
def exEvents : List ReviewEvent :=
  [⟨"A", 0⟩, ⟨"A", 1000000000⟩, ⟨"A", 2000000000⟩,
   ⟨"A", 8640000000000000⟩, ⟨"B", 8553600000000000⟩]

/-- The same five events in a different input order. -/
def exEventsShuffled : List ReviewEvent :=
  [⟨"B", 8553600000000000⟩, ⟨"A", 8640000000000000⟩,
   ⟨"A", 2000000000⟩, ⟨"A", 0⟩, ⟨"A", 1000000000⟩]

/-- An example metadata input that has a row for the non-kept product "B"
but none for the kept product "A". -/
def exMeta : List MetaRow :=
  [⟨"B", "meta-of-B"⟩]

/-! ### Helper lemmas on the fold-based aggregates -/

theorem foldl_min_mem (xs : List Int) (x : Int) : xs.foldl min x ∈ x :: xs := by
  induction xs generalizing x with
  | nil => simp
  | cons y ys ih =>
    have h := ih (min x y)
    simp only [List.foldl_cons]
    rcases List.mem_cons.mp h with h1 | h1
    · rcases min_choice x y with h2 | h2 <;> rw [h1, h2]
      · exact List.mem_cons_self _ _
      · exact List.mem_cons_of_mem _ (List.mem_cons_self _ _)
    · exact List.mem_cons_of_mem _ (List.mem_cons_of_mem _ h1)

theorem foldl_min_le (xs : List Int) (x : Int) :
    ∀ y ∈ x :: xs, xs.foldl min x ≤ y := by
  induction xs generalizing x with
  | nil =>
    intro y hy
    simp only [List.mem_singleton] at hy
    simp [hy]
  | cons z zs ih =>
    intro y hy
    simp only [List.foldl_cons]
    have hmin : zs.foldl min (min x z) ≤ min x z :=
      ih (min x z) (min x z) (List.mem_cons_self _ _)
    rcases List.mem_cons.mp hy with h | h
    · subst h; exact le_trans hmin (min_le_left _ _)
    · rcases List.mem_cons.mp h with h1 | h1
      · subst h1; exact le_trans hmin (min_le_right _ _)
      · exact ih (min x z) y (List.mem_cons_of_mem _ h1)

theorem le_foldl_max (xs : List Int) (x : Int) :
    ∀ y ∈ x :: xs, y ≤ xs.foldl max x := by
  induction xs generalizing x with
  | nil =>
    intro y hy
    simp only [List.mem_singleton] at hy
    simp [hy]
  | cons z zs ih =>
    intro y hy
    simp only [List.foldl_cons]
    have hmax : max x z ≤ zs.foldl max (max x z) :=
      ih (max x z) (max x z) (List.mem_cons_self _ _)
    rcases List.mem_cons.mp hy with h | h
    · subst h; exact le_trans (le_max_left _ _) hmax
    · rcases List.mem_cons.mp h with h1 | h1
      · subst h1; exact le_trans (le_max_right _ _) hmax
      · exact ih (max x z) y (List.mem_cons_of_mem _ h1)

theorem minList_mem (l : List Int) (h : l ≠ []) : minList l ∈ l := by
  cases l with
  | nil => exact absurd rfl h
  | cons x xs => exact foldl_min_mem xs x

theorem minList_le (l : List Int) : ∀ y ∈ l, minList l ≤ y := by
  cases l with
  | nil => intro y hy; exact absurd hy (List.not_mem_nil y)
  | cons x xs => exact foldl_min_le xs x

theorem le_maxList (l : List Int) : ∀ y ∈ l, y ≤ maxList l := by
  cases l with
  | nil => intro y hy; exact absurd hy (List.not_mem_nil y)
  | cons x xs => exact le_foldl_max xs x

theorem minList_perm {l1 l2 : List Int} (h : l1.Perm l2) :
    minList l1 = minList l2 := by
  cases l1 with
  | nil => rw [← h.symm.eq_nil]
  | cons x xs =>
    have h1 : (x :: xs) ≠ ([] : List Int) := by simp
    have h2 : l2 ≠ [] := by
      intro hnil
      rw [hnil] at h
      simp [h.eq_nil] at h1
    exact le_antisymm
      (minList_le _ _ (h.mem_iff.mpr (minList_mem l2 h2)))
      (minList_le _ _ (h.mem_iff.mp (minList_mem _ h1)))

theorem foldl_max_mem (xs : List Int) (x : Int) : xs.foldl max x ∈ x :: xs := by
  induction xs generalizing x with
  | nil => simp
  | cons y ys ih =>
    have h := ih (max x y)
    simp only [List.foldl_cons]
    rcases List.mem_cons.mp h with h1 | h1
    · rcases max_choice x y with h2 | h2 <;> rw [h1, h2]
      · exact List.mem_cons_self _ _
      · exact List.mem_cons_of_mem _ (List.mem_cons_self _ _)
    · exact List.mem_cons_of_mem _ (List.mem_cons_of_mem _ h1)

theorem maxList_mem (l : List Int) (h : l ≠ []) : maxList l ∈ l := by
  cases l with
  | nil => exact absurd rfl h
  | cons x xs => exact foldl_max_mem xs x

theorem maxList_perm {l1 l2 : List Int} (h : l1.Perm l2) :
    maxList l1 = maxList l2 := by
  cases l1 with
  | nil => rw [← h.symm.eq_nil]
  | cons x xs =>
    have h1 : (x :: xs) ≠ ([] : List Int) := by simp
    have h2 : l2 ≠ [] := by
      intro hnil
      rw [hnil] at h
      simp [h.eq_nil] at h1
    exact le_antisymm
      (le_maxList l2 _ (h.mem_iff.mp (maxList_mem _ h1)))
      (le_maxList _ _ (h.mem_iff.mpr (maxList_mem l2 h2)))

/-! ### Structural lemmas on the pipeline -/

theorem augRow_parent_asin (events : List ReviewEvent) (e : ReviewEvent) :
    (augRow events e).parent_asin = e.parent_asin := rfl

theorem rowsOf_augment (events : List ReviewEvent) (p : String) :
    rowsOf (augment events) p = (eventsOf events p).map (augRow events) := by
  unfold rowsOf augment eventsOf
  rw [List.filter_map]
  rfl

theorem sum_map_ite_length {α : Type} (l : List α) (P : α → Prop) [DecidablePred P] :
    (l.map (fun a => if P a then (1 : Int) else 0)).sum
      = ((l.filter (fun a => decide (P a))).length : Int) := by
  induction l with
  | nil => simp
  | cons a l ih =>
    by_cases h : P a <;> simp [List.filter_cons, h, ih, add_comm]

/-- The `reviews_28d` aggregate, written as a sum of indicators over the
product's raw events. -/
theorem reviews28d_eq_sum (events : List ReviewEvent) (p : String) :
    reviews28d events p
      = ((eventsOf events p).map
          (fun e => if 0 ≤ dayFromLaunch events e ∧ dayFromLaunch events e ≤ 27
            then (1 : Int) else 0)).sum := by
  unfold reviews28d
  rw [rowsOf_augment, List.map_map]
  rfl

/-- The `future_reviews_28d` aggregate, written as a sum of indicators over
the product's raw events. -/
theorem futureReviews28d_eq_sum (events : List ReviewEvent) (p : String) :
    futureReviews28d events p
      = ((eventsOf events p).map
          (fun e => if 28 ≤ dayFromLaunch events e ∧ dayFromLaunch events e ≤ 55
            then (1 : Int) else 0)).sum := by
  unfold futureReviews28d
  rw [rowsOf_augment, List.map_map]
  rfl

/-! ### The claims -/

/-- Claim C1: in every product-index row, `eligible` holds iff
`reviews_28d ≥ 3` and `keep_product` holds iff `eligible ∧ observable_55d`;
in particular a row with `reviews_28d = 0` is not eligible and not kept,
whatever its observability. -/
theorem C1_eligible_and_keep_rule (events : List ReviewEvent) (p : String) :
    ((mkProductRow events p).eligible = true ↔ 3 ≤ (mkProductRow events p).reviews_28d)
    ∧ ((mkProductRow events p).keep_product = true ↔
        ((mkProductRow events p).eligible = true
          ∧ (mkProductRow events p).observable_55d = true))
    ∧ ((mkProductRow events p).reviews_28d = 0 →
        (mkProductRow events p).eligible = false
          ∧ (mkProductRow events p).keep_product = false) := by
  have he : (mkProductRow events p).eligible = eligibleCol events p := rfl
  have hk : (mkProductRow events p).keep_product = keepProduct events p := rfl
  have hr : (mkProductRow events p).reviews_28d = reviews28d events p := rfl
  have ho : (mkProductRow events p).observable_55d = observable55d events p := rfl
  refine ⟨?_, ?_, ?_⟩
  · rw [he, hr]; simp [eligibleCol]
  · rw [hk, he, ho]; simp [keepProduct]
  · intro h0
    rw [hr] at h0
    rw [he, hk]
    refine ⟨?_, ?_⟩
    · simp [eligibleCol, h0]
    · simp [keepProduct, eligibleCol, h0]

/-- Claim C2: `observable_55d` holds iff the launch date is at most the
cutoff `date_sub(dataset_end, 55)` — the date promoted to the midnight
timestamp `86400 * cutoff` for the comparison — where `dataset_end` is the
single global maximum review date over ALL events of the run, recorded
identically in every product row; the boundary is inclusive: a launch date
exactly at the cutoff is observable. -/
theorem C2_observability_cutoff (events : List ReviewEvent) (p : String) :
    ((mkProductRow events p).observable_55d = true ↔
      (mkProductRow events p).launch_date
        ≤ 86400 * (dayOf (maxList (events.map reviewDate)) - 55))
    ∧ ((mkProductRow events p).dataset_end = maxList (events.map reviewDate))
    ∧ ((mkProductRow events p).launch_date
          = 86400 * (dayOf (maxList (events.map reviewDate)) - 55) →
        (mkProductRow events p).observable_55d = true) := by
  have ho : (mkProductRow events p).observable_55d = observable55d events p := rfl
  have hl : (mkProductRow events p).launch_date = aggLaunchDate events p := rfl
  have hc : 86400 * (dayOf (maxList (events.map reviewDate)) - 55)
      = 86400 * cutoffDate events := rfl
  refine ⟨?_, rfl, ?_⟩
  · rw [ho, hl, hc]
    simp [observable55d]
  · intro h
    rw [hl, hc] at h
    rw [ho]
    simp [observable55d]
    exact le_of_eq h

/-- Claim C3: `reviews_28d` counts exactly the product's events whose
`day_from_launch` (the calendar-day difference between review date and
launch date) lies in `[0, 27]`, and `future_reviews_28d` those in
`[28, 55]`. -/
theorem C3_window_counts (events : List ReviewEvent) (p : String) :
    (mkProductRow events p).reviews_28d
      = (((eventsOf events p).filter
          (fun e => decide (0 ≤ dayFromLaunch events e ∧ dayFromLaunch events e ≤ 27))).length : Int)
    ∧ (mkProductRow events p).future_reviews_28d
      = (((eventsOf events p).filter
          (fun e => decide (28 ≤ dayFromLaunch events e ∧ dayFromLaunch events e ≤ 55))).length : Int) := by
  constructor
  · rw [show (mkProductRow events p).reviews_28d = reviews28d events p from rfl,
      reviews28d_eq_sum, sum_map_ite_length]
  · rw [show (mkProductRow events p).future_reviews_28d = futureReviews28d events p from rfl,
      futureReviews28d_eq_sum, sum_map_ite_length]

theorem futureReviews28d_nonneg (events : List ReviewEvent) (p : String) :
    0 ≤ futureReviews28d events p := by
  rw [futureReviews28d_eq_sum]
  apply List.sum_nonneg
  intro x hx
  rcases List.mem_map.mp hx with ⟨e, _, he⟩
  rw [← he]
  split <;> norm_num

/-- Claim C4: the traction flags are NULL exactly when the product is not
observable; on the observable population both are defined,
`traction_flag = 1` iff `future_reviews_28d > 0`, `low_traction_flag = 1`
iff `future_reviews_28d = 0`, and exactly one of the two defined flags is
set — never both defined-true and never both defined-false. -/
theorem C4_traction_flags_partition (events : List ReviewEvent) (p : String) :
    ((mkProductRow events p).observable_55d = false →
      (mkProductRow events p).traction_flag = none
        ∧ (mkProductRow events p).low_traction_flag = none)
    ∧ ((mkProductRow events p).observable_55d = true →
        (((mkProductRow events p).traction_flag = some 1
            ∧ (mkProductRow events p).low_traction_flag = some 0)
          ↔ 0 < (mkProductRow events p).future_reviews_28d)
        ∧ (((mkProductRow events p).traction_flag = some 0
            ∧ (mkProductRow events p).low_traction_flag = some 1)
          ↔ (mkProductRow events p).future_reviews_28d = 0)
        ∧ (((mkProductRow events p).traction_flag = some 1
            ∧ (mkProductRow events p).low_traction_flag = some 0)
          ∨ ((mkProductRow events p).traction_flag = some 0
            ∧ (mkProductRow events p).low_traction_flag = some 1))) := by
  have ht : (mkProductRow events p).traction_flag = tractionFlag events p := rfl
  have hlt : (mkProductRow events p).low_traction_flag = lowTractionFlag events p := rfl
  have ho : (mkProductRow events p).observable_55d = observable55d events p := rfl
  have hf : (mkProductRow events p).future_reviews_28d = futureReviews28d events p := rfl
  rw [ht, hlt, ho, hf]
  have hnn := futureReviews28d_nonneg events p
  constructor
  · intro h
    simp [tractionFlag, lowTractionFlag, h]
  · intro h
    by_cases hpos : 0 < futureReviews28d events p
    · have hne : ¬ futureReviews28d events p = 0 := by omega
      simp [tractionFlag, lowTractionFlag, h, hpos, hne]
    · have heq : futureReviews28d events p = 0 := by omega
      simp [tractionFlag, lowTractionFlag, h, hpos, heq]

/-- Claim C8: the first aggregation pass (`df_product_stats`) and the final
aggregation (`df_product_agg`, as carried into the product index), both
evaluated over the same immutable augmented event set, agree on
`launch_date`, `reviews_28d`, `observable_55d` and `eligible` for every
product. -/
theorem C8_two_pass_agreement (events : List ReviewEvent) (p : String) :
    (productStats events p).launch_date = (mkProductRow events p).launch_date
    ∧ (productStats events p).reviews_28d = (mkProductRow events p).reviews_28d
    ∧ (productStats events p).observable_55d = (mkProductRow events p).observable_55d
    ∧ (productStats events p).eligible = (mkProductRow events p).eligible :=
  ⟨rfl, rfl, rfl, rfl⟩

theorem dayOf_mono {a b : Int} (h : a ≤ b) : dayOf a ≤ dayOf b := by
  unfold dayOf
  rw [Int.fdiv_eq_ediv _ (by norm_num), Int.fdiv_eq_ediv _ (by norm_num)]
  exact Int.ediv_le_ediv (by norm_num) h

theorem mem_eventsOf_self {events : List ReviewEvent} {e : ReviewEvent}
    (he : e ∈ events) : e ∈ eventsOf events e.parent_asin := by
  unfold eventsOf
  exact List.mem_filter.mpr ⟨he, by simp⟩

/-- Claim C5: the launch date of a product is the minimum review date over
its events — it is attained by one of them and is a lower bound for all of
them (so `day_from_launch ≥ 0` on every augmented row); every augmented
row carries the one launch date of its `parent_asin`. -/
theorem C5_launch_date_is_min (events : List ReviewEvent) (e : ReviewEvent)
    (he : e ∈ events) :
    (launchDate events e.parent_asin ≤ reviewDate e)
    ∧ (∃ e2 ∈ eventsOf events e.parent_asin,
        reviewDate e2 = launchDate events e.parent_asin)
    ∧ ((augRow events e).launch_date = launchDate events e.parent_asin)
    ∧ (0 ≤ (augRow events e).day_from_launch) := by
  have hmem : e ∈ eventsOf events e.parent_asin := mem_eventsOf_self he
  have hmm : reviewDate e ∈ (eventsOf events e.parent_asin).map reviewDate :=
    List.mem_map_of_mem reviewDate hmem
  have h1 : launchDate events e.parent_asin ≤ reviewDate e := minList_le _ _ hmm
  have hne : (eventsOf events e.parent_asin).map reviewDate ≠ [] := by
    intro h0
    rw [h0] at hmm
    exact List.not_mem_nil _ hmm
  have h2 := minList_mem _ hne
  rcases List.mem_map.mp h2 with ⟨e2, he2, heq⟩
  refine ⟨h1, ⟨e2, he2, heq⟩, rfl, ?_⟩
  have hd : dayOf (launchDate events e.parent_asin) ≤ dayOf (reviewDate e) :=
    dayOf_mono h1
  show 0 ≤ dayOf (reviewDate e) - dayOf (launchDate events e.parent_asin)
  omega

/-- Witness for C5 at a concrete input: the first example event of
product "A". -/
theorem C5_witness :
    (launchDate exEvents (ReviewEvent.mk "A" 0).parent_asin
        ≤ reviewDate (ReviewEvent.mk "A" 0))
    ∧ (∃ e2 ∈ eventsOf exEvents (ReviewEvent.mk "A" 0).parent_asin,
        reviewDate e2 = launchDate exEvents (ReviewEvent.mk "A" 0).parent_asin)
    ∧ ((augRow exEvents (ReviewEvent.mk "A" 0)).launch_date
        = launchDate exEvents (ReviewEvent.mk "A" 0).parent_asin)
    ∧ (0 ≤ (augRow exEvents (ReviewEvent.mk "A" 0)).day_from_launch) :=
  C5_launch_date_is_min exEvents (ReviewEvent.mk "A" 0) (by decide)

/-- Claim C10: a product that appears in the input has `reviews_28d ≥ 1`:
the event attaining the launch date has `day_from_launch = 0`, which lies
in the `[0, 27]` signal window, so `reviews_28d = 0` is unreachable for
products present in the event set. -/
theorem C10_present_product_has_signal (events : List ReviewEvent) (p : String)
    (h : p ∈ events.map (fun e => e.parent_asin)) :
    (∃ e ∈ eventsOf events p, dayFromLaunch events e = 0)
    ∧ 1 ≤ (mkProductRow events p).reviews_28d := by
  rcases List.mem_map.mp h with ⟨e, heev, hpe⟩
  have hmem : e ∈ eventsOf events p := by
    unfold eventsOf
    exact List.mem_filter.mpr ⟨heev, by simp [hpe]⟩
  have hmm : reviewDate e ∈ (eventsOf events p).map reviewDate :=
    List.mem_map_of_mem reviewDate hmem
  have hne : (eventsOf events p).map reviewDate ≠ [] := by
    intro h0
    rw [h0] at hmm
    exact List.not_mem_nil _ hmm
  have h2 := minList_mem _ hne
  rcases List.mem_map.mp h2 with ⟨e0, he0, heq⟩
  have he0p : e0.parent_asin = p := by
    have := (List.mem_filter.mp he0).2
    simpa using this
  have hd : dayFromLaunch events e0 = 0 := by
    unfold dayFromLaunch
    rw [he0p]
    unfold launchDate
    rw [heq]
    omega
  refine ⟨⟨e0, he0, hd⟩, ?_⟩
  have hr : (mkProductRow events p).reviews_28d = reviews28d events p := rfl
  rw [hr, reviews28d_eq_sum]
  have hnn : ∀ x ∈ (eventsOf events p).map
      (fun e => if 0 ≤ dayFromLaunch events e ∧ dayFromLaunch events e ≤ 27
        then (1 : Int) else 0), 0 ≤ x := by
    intro x hx
    rcases List.mem_map.mp hx with ⟨e1, _, he1⟩
    rw [← he1]
    split <;> norm_num
  have hone : (1 : Int) ∈ (eventsOf events p).map
      (fun e => if 0 ≤ dayFromLaunch events e ∧ dayFromLaunch events e ≤ 27
        then (1 : Int) else 0) := by
    refine List.mem_map.mpr ⟨e0, he0, ?_⟩
    rw [hd]
    norm_num
  exact List.single_le_sum hnn 1 hone

/-- Witness for C10 at a concrete input: product "A" of the example
events. -/
theorem C10_witness :
    (∃ e ∈ eventsOf exEvents "A", dayFromLaunch exEvents e = 0)
    ∧ 1 ≤ (mkProductRow exEvents "A").reviews_28d :=
  C10_present_product_has_signal exEvents "A" (by decide)

/-- Counterexample for C7 as stated: the anchoring stage is total — an
event with the negative timestamp −1.5e12 is not rejected; it flows
through the pipeline and receives the defined review date −1500 s (the
timestamp divided by 1e9, truncated), so no failure occurs on a negative
timestamp. -/
theorem C7_counterexample :
    (augment [⟨"A", -1500000000000⟩]).map (fun r => r.review_date) = [-1500] := by
  decide

/-- Claim C7 amended: the Time Anchor Calculator never fails — it applies
to EVERY event, negative timestamps included, exactly one fixed scale
conversion, dividing the raw timestamp by 1e9 and interpreting the
truncated quotient as seconds since the epoch, to produce `review_date`,
and it leaves the source `timestamp` column unchanged (no side effects). -/
theorem C7_anchor_total_fixed_scale (events : List ReviewEvent) :
    ((augment events).map (fun r => r.review_date)
      = events.map (fun e => Int.tdiv e.timestamp 1000000000))
    ∧ ((augment events).map (fun r => r.timestamp)
      = events.map (fun e => e.timestamp)) := by
  constructor <;> (unfold augment; rw [List.map_map]; rfl)

theorem keepProduct_mem_asins {events : List ReviewEvent} {p : String}
    (h : keepProduct events p = true) :
    p ∈ events.map (fun e => e.parent_asin) := by
  by_contra hmem
  have hev : eventsOf events p = [] := by
    unfold eventsOf
    rw [List.filter_eq_nil_iff]
    intro e he
    simp only [decide_eq_true_eq]
    intro heq
    exact hmem (List.mem_map.mpr ⟨e, he, heq⟩)
  have hr : reviews28d events p = 0 := by
    rw [reviews28d_eq_sum, hev]
    rfl
  unfold keepProduct eligibleCol at h
  rw [hr] at h
  simp at h

theorem mem_keptProducts_iff (events : List ReviewEvent) (p : String) :
    p ∈ keptProducts events ↔ keepProduct events p = true := by
  unfold keptProducts productIndex
  constructor
  · intro h
    rw [List.mem_dedup] at h
    rcases List.mem_map.mp h with ⟨r, hr, hasin⟩
    rcases List.mem_filter.mp hr with ⟨hr2, hkeep⟩
    rcases List.mem_map.mp hr2 with ⟨q, _, hrq⟩
    have hq : r.parent_asin = q := by rw [← hrq]; exact rfl
    have hkq : r.keep_product = keepProduct events q := by rw [← hrq]; exact rfl
    rw [hq] at hasin
    rw [hasin] at hkq
    rw [← hkq]
    exact hkeep
  · intro h
    have hp := keepProduct_mem_asins h
    rw [List.mem_dedup]
    refine List.mem_map.mpr ⟨mkProductRow events p, ?_, rfl⟩
    refine List.mem_filter.mpr ⟨?_, h⟩
    refine List.mem_map.mpr ⟨p, ?_, rfl⟩
    rw [List.mem_dedup]
    exact hp

/-- Counterexample for C6 as stated: with the example events, product "A"
is kept, but the metadata input `exMeta` has no row for "A", so the
filtered metadata output omits the kept product "A" — `meta_filtered` need
not contain every kept `product_id`. -/
theorem C6_counterexample :
    ("A" ∈ keptProducts exEvents)
    ∧ ("A" ∉ (metaFiltered exMeta exEvents).map (fun m => m.parent_asin)) := by
  decide

/-- Claim C6 amended: `reviews_filtered` contains exactly the product set
`{p : keep_product(p)}` — no extras, no omissions — while `meta_filtered`
contains exactly the kept products THAT OCCUR IN THE METADATA INPUT: the
inner join admits no non-kept extras, but a kept product absent from the
metadata input is absent from `meta_filtered`. -/
theorem C6_filter_product_sets (events : List ReviewEvent) (meta : List MetaRow)
    (p : String) :
    (p ∈ (reviewsFiltered events).map (fun r => r.parent_asin) ↔
      (mkProductRow events p).keep_product = true)
    ∧ (p ∈ (metaFiltered meta events).map (fun m => m.parent_asin) ↔
      ((mkProductRow events p).keep_product = true
        ∧ p ∈ meta.map (fun m => m.parent_asin))) := by
  have hk : (mkProductRow events p).keep_product = keepProduct events p := rfl
  rw [hk]
  constructor
  · constructor
    · intro h
      rcases List.mem_map.mp h with ⟨r, hr, hasin⟩
      rcases List.mem_filter.mp hr with ⟨_, hcont⟩
      rw [hasin] at hcont
      have : p ∈ keptProducts events := by
        have := List.elem_iff.mp hcont
        exact this
      exact (mem_keptProducts_iff events p).mp this
    · intro h
      have hp := keepProduct_mem_asins h
      rcases List.mem_map.mp hp with ⟨e, he, hpe⟩
      refine List.mem_map.mpr ⟨augRow events e, ?_, hpe⟩
      refine List.mem_filter.mpr ⟨List.mem_map.mpr ⟨e, he, rfl⟩, ?_⟩
      have hkp : e.parent_asin ∈ keptProducts events := by
        rw [hpe]
        exact (mem_keptProducts_iff events p).mpr h
      exact List.elem_iff.mpr hkp
  · constructor
    · intro h
      rcases List.mem_map.mp h with ⟨m, hm, hasin⟩
      rcases List.mem_filter.mp hm with ⟨hm2, hcont⟩
      rw [hasin] at hcont
      have hkept : p ∈ keptProducts events := List.elem_iff.mp hcont
      exact ⟨(mem_keptProducts_iff events p).mp hkept,
        List.mem_map.mpr ⟨m, hm2, hasin⟩⟩
    · rintro ⟨hkeep, hmeta⟩
      rcases List.mem_map.mp hmeta with ⟨m, hm, hpm⟩
      refine List.mem_map.mpr ⟨m, ?_, hpm⟩
      refine List.mem_filter.mpr ⟨hm, ?_⟩
      have : m.parent_asin ∈ keptProducts events := by
        rw [hpm]
        exact (mem_keptProducts_iff events p).mpr hkeep
      exact List.elem_iff.mpr this

/-! ### Permutation invariance: every derived value is a pure function of
the input multiset of events -/

theorem launchDate_perm {ev1 ev2 : List ReviewEvent} (h : ev1.Perm ev2)
    (p : String) : launchDate ev1 p = launchDate ev2 p :=
  minList_perm ((h.filter _).map reviewDate)

theorem datasetEnd_perm {ev1 ev2 : List ReviewEvent} (h : ev1.Perm ev2) :
    datasetEnd ev1 = datasetEnd ev2 :=
  maxList_perm (h.map reviewDate)

theorem augRow_perm {ev1 ev2 : List ReviewEvent} (h : ev1.Perm ev2)
    (e : ReviewEvent) : augRow ev1 e = augRow ev2 e := by
  have hl := launchDate_perm h e.parent_asin
  simp only [augRow, hl]

theorem rowsOf_perm {ev1 ev2 : List ReviewEvent} (h : ev1.Perm ev2)
    (p : String) :
    (rowsOf (augment ev1) p).Perm (rowsOf (augment ev2) p) := by
  rw [rowsOf_augment, rowsOf_augment]
  rw [List.map_congr_left (fun e _ => augRow_perm h e)]
  exact (h.filter _).map _

theorem mkProductRow_perm {ev1 ev2 : List ReviewEvent} (h : ev1.Perm ev2)
    (p : String) : mkProductRow ev1 p = mkProductRow ev2 p := by
  have hrows := rowsOf_perm h p
  have hld : aggLaunchDate ev1 p = aggLaunchDate ev2 p :=
    minList_perm (hrows.map _)
  have hr28 : reviews28d ev1 p = reviews28d ev2 p :=
    (hrows.map _).sum_eq
  have hf28 : futureReviews28d ev1 p = futureReviews28d ev2 p :=
    (hrows.map _).sum_eq
  have hde : datasetEnd ev1 = datasetEnd ev2 := datasetEnd_perm h
  have hcut : cutoffDate ev1 = cutoffDate ev2 := by
    unfold cutoffDate
    rw [hde]
  have hobs : observable55d ev1 p = observable55d ev2 p := by
    unfold observable55d
    rw [hld, hcut]
  have helig : eligibleCol ev1 p = eligibleCol ev2 p := by
    unfold eligibleCol
    rw [hr28]
  unfold mkProductRow tractionFlag lowTractionFlag keepProduct
  rw [hld, hr28, hf28, hde, hobs, helig]

/-- Claim C9: the pipeline is deterministic and idempotent — the product
index is a pure function of the input event multiset: on two inputs that
are permutations of one another (the only nondeterminism between two runs
on identical data being row order), every product gets an identical index
row, and the two product indexes are equal up to row order. -/
theorem C9_deterministic_up_to_order (events1 events2 : List ReviewEvent)
    (h : events1.Perm events2) :
    (∀ p, mkProductRow events1 p = mkProductRow events2 p)
    ∧ (productIndex events1).Perm (productIndex events2) := by
  refine ⟨fun p => mkProductRow_perm h p, ?_⟩
  unfold productIndex
  rw [List.map_congr_left (fun q _ => mkProductRow_perm h q)]
  exact ((h.map _).dedup).map _

/-- Witness for C9 at a concrete input: the example events and their
shuffle. -/
theorem C9_witness :
    (∀ p, mkProductRow exEvents p = mkProductRow exEventsShuffled p)
    ∧ (productIndex exEvents).Perm (productIndex exEventsShuffled) :=
  C9_deterministic_up_to_order exEvents exEventsShuffled (by decide)

end AmazonBeauty
